import Mathlib

/-!
Verification of the snapshot-diff-and-apply synchronization engine of
`db_mirror.py` (class `DatabaseMirror`).

The embedding models:
* snapshots (`fetch_source_data` / `fetch_target_data`) as association
  lists from primary-key values to business-column tuples, column values
  being `Option String` with `none` standing for SQL NULL;
* the statement stream emitted by `sync_data` (single-row INSERT,
  single-row UPDATE, single-row soft-delete UPDATE, in source order
  followed by delete order);
* statement execution against the target table, with the target table as
  an association list from key to a row record holding the business
  tuple plus the two tracking columns `operation_type` / `last_updated`;
* the one-commit / rollback-on-error transaction discipline of
  `sync_data`;
* the textual DDL rewriting of `create_target_table_if_not_exists`
  (quote conversion, `IF NOT EXISTS` insertion, regex-located injection
  of the two tracking columns);
* `validate_config` and `get_connection`.
-/

namespace DbMirror

/-- A column value: `none` models SQL NULL (Python `None`). -/
abbrev Val := Option String

/-- A business-column tuple, ordered per the source column list. -/
abbrev Row := List Val

/-- A physical target-table row: business columns plus the two tracking
columns maintained by the engine. -/
structure TRow where
  business : Row
  operation_type : String
  last_updated : Nat
deriving DecidableEq

/-- The physical target table, keyed by primary key. -/
abbrev Table := List (String × TRow)

/-- A snapshot (source or target side): key to business tuple. -/
abbrev Snap := List (String × Row)

/-- Association-list lookup, modelling Python dict access. -/
def alookup {α : Type} (k : String) : List (String × α) → Option α
  | [] => none
  | e :: rest => if e.1 = k then some e.2 else alookup k rest

/-- The key list of an association list. -/
def keys {α : Type} (l : List (String × α)) : List String := l.map Prod.fst

theorem keys_append {α : Type} (l1 l2 : List (String × α)) :
    keys (l1 ++ l2) = keys l1 ++ keys l2 := by
  simp [keys]

theorem mem_keys_iff {α : Type} (k : String) (l : List (String × α)) :
    k ∈ keys l ↔ ∃ v, (k, v) ∈ l := by
  induction l with
  | nil => simp [keys]
  | cons e rest ih =>
    cases e with
    | mk k' v' =>
      simp only [keys, List.map_cons, List.mem_cons] at *
      constructor
      · rintro (h | h)
        · exact ⟨v', Or.inl (by simp [h.symm])⟩
        · obtain ⟨v, hv⟩ := ih.mp h
          exact ⟨v, Or.inr hv⟩
      · rintro ⟨v, h | h⟩
        · left
          cases h
          rfl
        · right
          exact ih.mpr ⟨v, h⟩

theorem alookup_eq_none {α : Type} (k : String) (l : List (String × α)) :
    alookup k l = none ↔ k ∉ keys l := by
  induction l with
  | nil => simp [alookup, keys]
  | cons e rest ih =>
    cases e with
    | mk k' v' =>
      by_cases h : k' = k
      · subst h
        simp [alookup, keys]
      · simp only [alookup, keys, List.map_cons, List.mem_cons, if_neg h]
        rw [ih]
        constructor
        · intro hk hor
          rcases hor with h1 | h1
          · exact h h1.symm
          · exact hk h1
        · intro hk h1
          exact hk (Or.inr h1)

theorem alookup_isSome_iff {α : Type} (k : String) (l : List (String × α)) :
    (alookup k l).isSome ↔ k ∈ keys l := by
  constructor
  · intro h
    by_contra hk
    rw [(alookup_eq_none k l).mpr hk] at h
    simp at h
  · intro h
    cases hl : alookup k l with
    | none => exact absurd h (by rw [← alookup_eq_none k l]; exact hl)
    | some v => rfl

theorem alookup_mem {α : Type} {k : String} {l : List (String × α)} {v : α}
    (h : alookup k l = some v) : (k, v) ∈ l := by
  induction l with
  | nil => simp [alookup] at h
  | cons e rest ih =>
    by_cases he : e.1 = k
    · rw [alookup, if_pos he] at h
      cases e with
      | mk k' v' =>
        simp only [Option.some.injEq] at h
        cases he
        cases h
        exact List.mem_cons_self _ _
    · rw [alookup, if_neg he] at h
      exact List.mem_cons_of_mem _ (ih h)

theorem alookup_of_mem_nodup {α : Type} {k : String} {l : List (String × α)} {v : α}
    (hnd : (keys l).Nodup) (h : (k, v) ∈ l) : alookup k l = some v := by
  induction l with
  | nil => simp at h
  | cons e rest ih =>
    simp only [keys, List.map_cons, List.nodup_cons] at hnd
    rcases List.mem_cons.mp h with h1 | h1
    · subst h1
      simp [alookup]
    · have hke : e.1 ≠ k := by
        intro hek
        apply hnd.1
        rw [hek]
        exact (mem_keys_iff k rest).mpr ⟨v, h1⟩
      rw [alookup, if_neg hke]
      exact ih hnd.2 h1

theorem alookup_append {α : Type} (k : String) (l1 l2 : List (String × α)) :
    alookup k (l1 ++ l2) =
      match alookup k l1 with
      | some v => some v
      | none => alookup k l2 := by
  induction l1 with
  | nil => simp [alookup]
  | cons e rest ih =>
    by_cases he : e.1 = k
    · simp [alookup, if_pos he]
    · simp only [List.cons_append, alookup, if_neg he]
      exact ih

theorem alookup_split {α : Type} {k : String} {l : List (String × α)} {v : α}
    (hnd : (keys l).Nodup) (h : alookup k l = some v) :
    ∃ l1 l2, l = l1 ++ (k, v) :: l2 ∧ k ∉ keys l1 ∧ k ∉ keys l2 := by
  induction l with
  | nil => simp [alookup] at h
  | cons e rest ih =>
    simp only [keys, List.map_cons, List.nodup_cons] at hnd
    by_cases he : e.1 = k
    · rw [alookup, if_pos he] at h
      refine ⟨[], rest, ?_, by simp [keys], ?_⟩
      · cases e
        simp_all
      · rw [← he]
        exact hnd.1
    · rw [alookup, if_neg he] at h
      obtain ⟨l1, l2, heq, h1, h2⟩ := ih hnd.2 h
      refine ⟨e :: l1, l2, by rw [heq]; rfl, ?_, h2⟩
      simp only [keys, List.map_cons, List.mem_cons]
      rintro (hk | hk)
      · exact he hk.symm
      · exact h1 hk

/-- `UPDATE … WHERE pk = k`: rewrite every entry whose key is `k`. -/
def mod_key (k : String) (f : TRow → TRow) (t : Table) : Table :=
  t.map (fun e => if e.1 = k then (e.1, f e.2) else e)

theorem keys_mod_key (k : String) (f : TRow → TRow) (t : Table) :
    keys (mod_key k f t) = keys t := by
  induction t with
  | nil => rfl
  | cons e rest ih =>
    by_cases he : e.1 = k
    · simp [mod_key, keys, if_pos he] at *
      exact ih
    · simp [mod_key, keys, if_neg he] at *
      exact ih

theorem alookup_mod_key_self (k : String) (f : TRow → TRow) (t : Table) :
    alookup k (mod_key k f t) = (alookup k t).map f := by
  induction t with
  | nil => rfl
  | cons e rest ih =>
    by_cases he : e.1 = k
    · simp [mod_key, alookup, if_pos he]
    · simp [mod_key, alookup, if_neg he]
      exact ih

theorem alookup_mod_key_ne {k k' : String} (h : k' ≠ k) (f : TRow → TRow) (t : Table) :
    alookup k' (mod_key k f t) = alookup k' t := by
  induction t with
  | nil => rfl
  | cons e rest ih =>
    by_cases he : e.1 = k
    · have : ¬e.1 = k' := by
        rw [he]
        exact fun hkk => h hkk.symm
      simp [mod_key, alookup, if_pos he, if_neg this]
      exact ih
    · by_cases he' : e.1 = k'
      · simp [mod_key, alookup, if_neg he, if_pos he']
      · simp [mod_key, alookup, if_neg he, if_neg he']
        exact ih

/-- One SQL write of the apply phase of `sync_data`.  Each statement
addresses a single row: the code calls `cursor.execute` once per row for
all three kinds. -/
inductive Stmt where
  | insert (k : String) (r : Row)
  | update (k : String) (r : Row)
  | markDeleted (k : String)
deriving DecidableEq

/-- The primary-key value a statement addresses. -/
def stmt_key : Stmt → String
  | .insert k _ => k
  | .update k _ => k
  | .markDeleted k => k

/-- Number of row tuples carried by one statement: `sync_data` binds
exactly one row of values per `cursor.execute` call. -/
def stmt_row_count : Stmt → Nat
  | .insert _ _ => 1
  | .update _ _ => 1
  | .markDeleted _ => 1

/-- Execution of one statement against the target table.  A plain
`INSERT` fails (duplicate-key error) when the key is already physically
present; the two `UPDATE` forms rewrite the matching rows.  `now` is the
value of `CURRENT_TIMESTAMP` / the timestamp column default. -/
def execStmt (now : Nat) (t : Table) : Stmt → Except Unit Table
  | .insert k r =>
    if (alookup k t).isSome then .error ()
    else .ok (t ++ [(k, ⟨r, "inserted", now⟩)])
  | .update k r => .ok (mod_key k (fun _ => ⟨r, "updated", now⟩) t)
  | .markDeleted k => .ok (mod_key k (fun e => ⟨e.business, "deleted", now⟩) t)

/-- Sequential execution of the statement stream, stopping at the first
error (the raised exception aborts the loop in `sync_data`). -/
def execAll (now : Nat) : Table → List Stmt → Except Unit Table
  | t, [] => .ok t
  | t, s :: rest =>
    match execStmt now t s with
    | .error e => .error e
    | .ok t2 => execAll now t2 rest

theorem execAll_append (now : Nat) (t : Table) (l1 l2 : List Stmt) :
    execAll now t (l1 ++ l2) =
      match execAll now t l1 with
      | .error e => .error e
      | .ok t2 => execAll now t2 l2 := by
  induction l1 generalizing t with
  | nil => simp [execAll]
  | cons s rest ih =>
    simp only [List.cons_append, execAll]
    cases execStmt now t s with
    | error e => rfl
    | ok t2 => exact ih t2

theorem execAll_append_ok {now : Nat} {t t2 : Table} {l1 l2 : List Stmt}
    (h : execAll now t (l1 ++ l2) = .ok t2) :
    ∃ tm, execAll now t l1 = .ok tm ∧ execAll now tm l2 = .ok t2 := by
  rw [execAll_append] at h
  cases he : execAll now t l1 with
  | error e => rw [he] at h; exact absurd h (by simp)
  | ok tm => rw [he] at h; exact ⟨tm, rfl, h⟩

theorem execAll_cons_ok {now : Nat} {t t2 : Table} {s : Stmt} {l : List Stmt}
    (h : execAll now t (s :: l) = .ok t2) :
    ∃ tm, execStmt now t s = .ok tm ∧ execAll now tm l = .ok t2 := by
  rw [execAll] at h
  cases he : execStmt now t s with
  | error e => rw [he] at h; exact absurd h (by simp)
  | ok tm => rw [he] at h; exact ⟨tm, rfl, h⟩

theorem execStmt_key_frame {now : Nat} {t t2 : Table} {s : Stmt} {k : String}
    (h : execStmt now t s = .ok t2) (hk : stmt_key s ≠ k) :
    alookup k t2 = alookup k t := by
  cases s with
  | insert k' r =>
    have hk' : k' ≠ k := hk
    rw [execStmt] at h
    by_cases hs : (alookup k' t).isSome
    · rw [if_pos hs] at h; exact absurd h (by simp)
    · rw [if_neg hs] at h
      simp only [Except.ok.injEq] at h
      subst h
      rw [alookup_append]
      have h0 : alookup k [(k', TRow.mk r "inserted" now)] = none := by
        simp [alookup, hk']
      cases halt : alookup k t with
      | none => simp [h0]
      | some v => simp
  | update k' r =>
    rw [execStmt] at h
    simp only [Except.ok.injEq] at h
    subst h
    exact alookup_mod_key_ne (fun hkk => hk hkk.symm) _ t
  | markDeleted k' =>
    rw [execStmt] at h
    simp only [Except.ok.injEq] at h
    subst h
    exact alookup_mod_key_ne (fun hkk => hk hkk.symm) _ t

theorem execAll_key_frame {now : Nat} {t t2 : Table} {l : List Stmt} {k : String}
    (h : execAll now t l = .ok t2) (hk : ∀ s ∈ l, stmt_key s ≠ k) :
    alookup k t2 = alookup k t := by
  induction l generalizing t with
  | nil => rw [execAll] at h; simp only [Except.ok.injEq] at h; rw [h]
  | cons s rest ih =>
    obtain ⟨tm, h1, h2⟩ := execAll_cons_ok h
    rw [ih h2 (fun s' hs' => hk s' (List.mem_cons_of_mem _ hs'))]
    exact execStmt_key_frame h1 (hk s (List.mem_cons_self _ _))

theorem execStmt_isSome_mono {now : Nat} {t t2 : Table} {s : Stmt} {k : String}
    (h : execStmt now t s = .ok t2) (hk : (alookup k t).isSome) :
    (alookup k t2).isSome := by
  by_cases hks : stmt_key s = k
  · cases s with
    | insert k' r =>
      rw [execStmt] at h
      by_cases hs : (alookup k' t).isSome
      · rw [if_pos hs] at h; exact absurd h (by simp)
      · rw [if_neg hs] at h
        simp only [Except.ok.injEq] at h
        subst h
        rw [alookup_append]
        cases halt : alookup k t with
        | none => rw [halt] at hk; simp at hk
        | some v => simp
    | update k' r =>
      rw [execStmt] at h
      simp only [Except.ok.injEq] at h
      subst h
      have hks' : k' = k := hks
      rw [← hks'] at hk ⊢
      rw [alookup_mod_key_self]
      cases halt : alookup k' t with
      | none => rw [halt] at hk; simp at hk
      | some v => simp
    | markDeleted k' =>
      rw [execStmt] at h
      simp only [Except.ok.injEq] at h
      subst h
      have hks' : k' = k := hks
      rw [← hks'] at hk ⊢
      rw [alookup_mod_key_self]
      cases halt : alookup k' t with
      | none => rw [halt] at hk; simp at hk
      | some v => simp
  · rw [execStmt_key_frame h hks]
    exact hk

theorem execAll_isSome_mono {now : Nat} {t t2 : Table} {l : List Stmt} {k : String}
    (h : execAll now t l = .ok t2) (hk : (alookup k t).isSome) :
    (alookup k t2).isSome := by
  induction l generalizing t with
  | nil => rw [execAll] at h; simp only [Except.ok.injEq] at h; rw [← h]; exact hk
  | cons s rest ih =>
    obtain ⟨tm, h1, h2⟩ := execAll_cons_ok h
    exact ih h2 (execStmt_isSome_mono h1 hk)

theorem execStmt_nodup {now : Nat} {t t2 : Table} {s : Stmt}
    (h : execStmt now t s = .ok t2) (hnd : (keys t).Nodup) :
    (keys t2).Nodup := by
  cases s with
  | insert k' r =>
    rw [execStmt] at h
    by_cases hs : (alookup k' t).isSome
    · rw [if_pos hs] at h; exact absurd h (by simp)
    · rw [if_neg hs] at h
      simp only [Except.ok.injEq] at h
      subst h
      rw [keys_append]
      rw [List.nodup_append]
      refine ⟨hnd, by simp [keys], ?_⟩
      intro a ha hb
      have hb' : a = k' := by
        simpa [keys] using hb
      rw [hb'] at ha
      rw [← alookup_isSome_iff] at ha
      exact hs ha
  | update k' r =>
    rw [execStmt] at h
    simp only [Except.ok.injEq] at h
    subst h
    rw [keys_mod_key]
    exact hnd
  | markDeleted k' =>
    rw [execStmt] at h
    simp only [Except.ok.injEq] at h
    subst h
    rw [keys_mod_key]
    exact hnd

theorem execAll_nodup {now : Nat} {t t2 : Table} {l : List Stmt}
    (h : execAll now t l = .ok t2) (hnd : (keys t).Nodup) :
    (keys t2).Nodup := by
  induction l generalizing t with
  | nil => rw [execAll] at h; simp only [Except.ok.injEq] at h; rw [← h]; exact hnd
  | cons s rest ih =>
    obtain ⟨tm, h1, h2⟩ := execAll_cons_ok h
    exact ih h2 (execStmt_nodup h1 hnd)

theorem execStmt_insert_ok {now : Nat} {t t2 : Table} {k : String} {r : Row}
    (h : execStmt now t (.insert k r) = .ok t2) :
    alookup k t = none ∧ alookup k t2 = some ⟨r, "inserted", now⟩ := by
  rw [execStmt] at h
  by_cases hs : (alookup k t).isSome
  · rw [if_pos hs] at h; exact absurd h (by simp)
  · rw [if_neg hs] at h
    simp only [Except.ok.injEq] at h
    subst h
    have hn : alookup k t = none := by
      cases halt : alookup k t with
      | none => rfl
      | some v => rw [halt] at hs; simp at hs
    refine ⟨hn, ?_⟩
    rw [alookup_append, hn]
    simp [alookup]

theorem execStmt_update_ok {now : Nat} {t t2 : Table} {k : String} {r : Row}
    (h : execStmt now t (.update k r) = .ok t2) :
    alookup k t2 = (alookup k t).map (fun _ => ⟨r, "updated", now⟩) := by
  rw [execStmt] at h
  simp only [Except.ok.injEq] at h
  subst h
  exact alookup_mod_key_self k _ t

theorem execStmt_markDeleted_ok {now : Nat} {t t2 : Table} {k : String}
    (h : execStmt now t (.markDeleted k) = .ok t2) :
    alookup k t2 = (alookup k t).map (fun e => ⟨e.business, "deleted", now⟩) := by
  rw [execStmt] at h
  simp only [Except.ok.injEq] at h
  subst h
  exact alookup_mod_key_self k _ t

/-- `fetch_target_data`: the target snapshot used for comparison, i.e.
`SELECT business-columns FROM table WHERE operation_type != 'deleted'`
keyed by primary key, business columns only. -/
def fetch_target_data (t : Table) : Snap :=
  (t.filter (fun e => e.2.operation_type ≠ "deleted")).map (fun e => (e.1, e.2.business))

theorem keys_fetch_subset (t : Table) :
    keys (fetch_target_data t) ⊆ keys t := by
  intro k hk
  simp only [fetch_target_data, keys, List.map_map, List.mem_map] at hk
  obtain ⟨e, he, hke⟩ := hk
  have he' : e ∈ t := List.mem_of_mem_filter he
  simp only [keys, List.mem_map]
  exact ⟨e, he', hke⟩

theorem nodup_fetch {t : Table} (h : (keys t).Nodup) :
    (keys (fetch_target_data t)).Nodup := by
  have hsub : (keys (fetch_target_data t)).Sublist (keys t) := by
    simp only [fetch_target_data, keys, List.map_map]
    have hfil : (t.filter (fun e => e.2.operation_type ≠ "deleted")).Sublist t :=
      List.filter_sublist t
    have := hfil.map (fun e : String × TRow => (e.1, e.2.business))
    have := this.map Prod.fst
    simpa using this
  exact h.sublist hsub

theorem alookup_fetch {t : Table} (h : (keys t).Nodup) (k : String) :
    alookup k (fetch_target_data t) =
      match alookup k t with
      | none => none
      | some e => if e.operation_type = "deleted" then none else some e.business := by
  induction t with
  | nil => rfl
  | cons e rest ih =>
    simp only [keys, List.map_cons, List.nodup_cons] at h
    by_cases he : e.1 = k
    · by_cases hdel : e.2.operation_type = "deleted"
      · have hfil : fetch_target_data (e :: rest) = fetch_target_data rest := by
          simp [fetch_target_data, List.filter_cons, hdel]
        rw [hfil, alookup, if_pos he]
        have hkn : k ∉ keys rest := by
          rw [← he]
          exact h.1
        have hnone : alookup k (fetch_target_data rest) = none := by
          rw [alookup_eq_none]
          intro hmem
          exact hkn (keys_fetch_subset rest hmem)
        rw [hnone]
        simp [hdel]
      · have hfil : fetch_target_data (e :: rest) =
            (e.1, e.2.business) :: fetch_target_data rest := by
          simp [fetch_target_data, List.filter_cons, hdel]
        rw [hfil, alookup, if_pos he, alookup, if_pos he]
        simp [hdel]
    · by_cases hdel : e.2.operation_type = "deleted"
      · have hfil : fetch_target_data (e :: rest) = fetch_target_data rest := by
          simp [fetch_target_data, List.filter_cons, hdel]
        rw [hfil, alookup, if_neg he]
        exact ih h.2
      · have hfil : fetch_target_data (e :: rest) =
            (e.1, e.2.business) :: fetch_target_data rest := by
          simp [fetch_target_data, List.filter_cons, hdel]
        rw [hfil, alookup, if_neg he, alookup, if_neg he]
        exact ih h.2

/-- The action `sync_data` takes for one source entry `(k, r)` given
the target snapshot: plain INSERT when the key is absent, UPDATE when
the business tuples differ (Python tuple `!=`, so NULL equals NULL),
nothing when they are equal. -/
def row_action (snap : Snap) (k : String) (r : Row) : List Stmt :=
  match alookup k snap with
  | none => [Stmt.insert k r]
  | some tr => if r = tr then [] else [Stmt.update k r]

/-- The action `sync_data` takes for one target-snapshot key: a
soft-delete UPDATE when the key is absent from the source snapshot. -/
def del_action (source : Snap) (k : String) : List Stmt :=
  if (alookup k source).isSome then [] else [Stmt.markDeleted k]

theorem row_action_absent {snap : Snap} {k : String} (r : Row)
    (h : alookup k snap = none) : row_action snap k r = [Stmt.insert k r] := by
  rw [row_action, h]

theorem row_action_equal {snap : Snap} {k : String} {r tr : Row}
    (h : alookup k snap = some tr) (heq : r = tr) : row_action snap k r = [] := by
  rw [row_action, h]
  simp [heq]

theorem row_action_differs {snap : Snap} {k : String} {r tr : Row}
    (h : alookup k snap = some tr) (hne : r ≠ tr) :
    row_action snap k r = [Stmt.update k r] := by
  rw [row_action, h]
  simp [hne]

theorem del_action_present {source : Snap} {k : String}
    (h : (alookup k source).isSome) : del_action source k = [] := by
  rw [del_action, if_pos h]

theorem del_action_absent {source : Snap} {k : String}
    (h : alookup k source = none) : del_action source k = [Stmt.markDeleted k] := by
  rw [del_action, if_neg (by rw [h]; simp)]

/-- The insert/update half of `sync_data`'s apply loop: one statement
per source key, in source iteration order. -/
def source_part (snap : Snap) : Snap → List Stmt
  | [] => []
  | (k, r) :: rest => row_action snap k r ++ source_part snap rest

/-- The delete half of `sync_data`'s apply loop: one soft-delete UPDATE
per target-snapshot key absent from the source snapshot. -/
def delete_part (source : Snap) : Snap → List Stmt
  | [] => []
  | (k, _) :: rest => del_action source k ++ delete_part source rest

/-- The full statement stream of one `sync_data` run, given the two
snapshots. -/
def genStmts (source snap : Snap) : List Stmt :=
  source_part snap source ++ delete_part source snap

theorem source_part_append (snap : Snap) (l1 l2 : Snap) :
    source_part snap (l1 ++ l2) = source_part snap l1 ++ source_part snap l2 := by
  induction l1 with
  | nil => simp [source_part]
  | cons e rest ih =>
    cases e with
    | mk k r =>
      rw [List.cons_append, source_part, source_part]
      rw [ih, List.append_assoc]

theorem delete_part_append (source : Snap) (l1 l2 : Snap) :
    delete_part source (l1 ++ l2) = delete_part source l1 ++ delete_part source l2 := by
  induction l1 with
  | nil => simp [delete_part]
  | cons e rest ih =>
    cases e with
    | mk k r =>
      rw [List.cons_append, delete_part, delete_part]
      rw [ih, List.append_assoc]

theorem mem_source_part {snap : Snap} {s : Stmt} {l : Snap} :
    s ∈ source_part snap l ↔
      ∃ k r, (k, r) ∈ l ∧
        ((alookup k snap = none ∧ s = .insert k r) ∨
         (∃ tr, alookup k snap = some tr ∧ r ≠ tr ∧ s = .update k r)) := by
  induction l with
  | nil => simp [source_part]
  | cons e rest ih =>
    cases e with
    | mk k' r' =>
      rw [source_part, List.mem_append, ih]
      constructor
      · rintro (hhead | htail)
        · refine ⟨k', r', List.mem_cons_self _ _, ?_⟩
          cases hsnap : alookup k' snap with
          | none =>
            rw [row_action_absent r' hsnap] at hhead
            simp only [List.mem_singleton] at hhead
            exact Or.inl ⟨rfl, hhead⟩
          | some tr =>
            by_cases heq : r' = tr
            · rw [row_action_equal hsnap heq] at hhead
              simp at hhead
            · rw [row_action_differs hsnap heq] at hhead
              simp only [List.mem_singleton] at hhead
              exact Or.inr ⟨tr, rfl, heq, hhead⟩
        · obtain ⟨k, r, hmem, hrest⟩ := htail
          exact ⟨k, r, List.mem_cons_of_mem _ hmem, hrest⟩
      · rintro ⟨k, r, hmem, hrest⟩
        rcases List.mem_cons.mp hmem with hed | hmem'
        · have hk1 : k' = k := by cases hed; rfl
          have hk2 : r' = r := by cases hed; rfl
          subst hk1
          subst hk2
          left
          rcases hrest with ⟨hsnap, hs⟩ | ⟨tr, hsnap, hne, hs⟩
          · rw [row_action_absent r' hsnap, hs]
            simp
          · rw [row_action_differs hsnap hne, hs]
            simp
        · right
          exact ⟨k, r, hmem', hrest⟩

theorem mem_delete_part {source : Snap} {s : Stmt} {l : Snap} :
    s ∈ delete_part source l ↔
      ∃ k, k ∈ keys l ∧ alookup k source = none ∧ s = .markDeleted k := by
  induction l with
  | nil => simp [delete_part, keys]
  | cons e rest ih =>
    cases e with
    | mk k' r' =>
      rw [delete_part, List.mem_append, ih]
      constructor
      · rintro (hhead | htail)
        · by_cases hsome : (alookup k' source).isSome
          · rw [del_action_present hsome] at hhead
            simp at hhead
          · have hl : alookup k' source = none := by
              cases hl : alookup k' source with
              | none => rfl
              | some v => rw [hl] at hsome; simp at hsome
            rw [del_action_absent hl] at hhead
            simp only [List.mem_singleton] at hhead
            exact ⟨k', by simp [keys], hl, hhead⟩
        · obtain ⟨k, hmem, hrest⟩ := htail
          exact ⟨k, by simp [keys] at hmem ⊢; exact Or.inr hmem, hrest⟩
      · rintro ⟨k, hmem, hnone, hs⟩
        simp only [keys, List.map_cons, List.mem_cons] at hmem
        rcases hmem with hk | hmem'
        · left
          subst hk
          rw [del_action_absent hnone, hs]
          simp
        · right
          exact ⟨k, hmem', hnone, hs⟩

theorem source_part_key_mem {snap : Snap} {s : Stmt} {l : Snap}
    (h : s ∈ source_part snap l) : stmt_key s ∈ keys l := by
  obtain ⟨k, r, hmem, hrest⟩ := mem_source_part.mp h
  have hk : stmt_key s = k := by
    rcases hrest with ⟨_, hs⟩ | ⟨_, _, _, hs⟩ <;> rw [hs] <;> rfl
  rw [hk]
  exact (mem_keys_iff k l).mpr ⟨r, hmem⟩

theorem delete_part_key_mem {source : Snap} {s : Stmt} {l : Snap}
    (h : s ∈ delete_part source l) :
    stmt_key s ∈ keys l ∧ alookup (stmt_key s) source = none := by
  obtain ⟨k, hmem, hnone, hs⟩ := mem_delete_part.mp h
  have hk : stmt_key s = k := by rw [hs]; rfl
  rw [hk]
  exact ⟨hmem, hnone⟩

theorem source_part_not_markDeleted {snap : Snap} {l : Snap} {k : String}
    (h : Stmt.markDeleted k ∈ source_part snap l) : False := by
  obtain ⟨k', r', _, hrest⟩ := mem_source_part.mp h
  rcases hrest with ⟨_, hs⟩ | ⟨_, _, _, hs⟩ <;> exact absurd hs (by simp)

/-- Keys classified `toInsert` by a run's statement stream. -/
def insert_keys (l : List Stmt) : List String :=
  l.filterMap fun s => match s with | .insert k _ => some k | _ => none

/-- Keys classified `toUpdate` by a run's statement stream. -/
def update_keys (l : List Stmt) : List String :=
  l.filterMap fun s => match s with | .update k _ => some k | _ => none

/-- Keys classified `toDelete` by a run's statement stream. -/
def delete_keys (l : List Stmt) : List String :=
  l.filterMap fun s => match s with | .markDeleted k => some k | _ => none

theorem mem_insert_keys {l : List Stmt} {k : String} :
    k ∈ insert_keys l ↔ ∃ r, Stmt.insert k r ∈ l := by
  rw [insert_keys, List.mem_filterMap]
  constructor
  · rintro ⟨s, hs, hk⟩
    cases s with
    | insert k' r =>
      simp only [Option.some.injEq] at hk
      subst hk
      exact ⟨r, hs⟩
    | update k' r => simp at hk
    | markDeleted k' => simp at hk
  · rintro ⟨r, hr⟩
    exact ⟨.insert k r, hr, rfl⟩

theorem mem_update_keys {l : List Stmt} {k : String} :
    k ∈ update_keys l ↔ ∃ r, Stmt.update k r ∈ l := by
  rw [update_keys, List.mem_filterMap]
  constructor
  · rintro ⟨s, hs, hk⟩
    cases s with
    | update k' r =>
      simp only [Option.some.injEq] at hk
      subst hk
      exact ⟨r, hs⟩
    | insert k' r => simp at hk
    | markDeleted k' => simp at hk
  · rintro ⟨r, hr⟩
    exact ⟨.update k r, hr, rfl⟩

theorem mem_delete_keys {l : List Stmt} {k : String} :
    k ∈ delete_keys l ↔ Stmt.markDeleted k ∈ l := by
  rw [delete_keys, List.mem_filterMap]
  constructor
  · rintro ⟨s, hs, hk⟩
    cases s with
    | markDeleted k' =>
      simp only [Option.some.injEq] at hk
      subst hk
      exact hs
    | insert k' r => simp at hk
    | update k' r => simp at hk
  · intro hr
    exact ⟨.markDeleted k, hr, rfl⟩

theorem insert_mem_genStmts {source snap : Snap} {k : String} {r : Row} :
    Stmt.insert k r ∈ genStmts source snap ↔ (k, r) ∈ source ∧ alookup k snap = none := by
  rw [genStmts, List.mem_append]
  constructor
  · rintro (h | h)
    · obtain ⟨k', r', hmem, hrest⟩ := mem_source_part.mp h
      rcases hrest with ⟨hsnap, hs⟩ | ⟨_, _, _, hs⟩
      · have hk : k' = k ∧ r' = r := by
          rw [Stmt.insert.injEq] at hs
          exact ⟨hs.1.symm, hs.2.symm⟩
        obtain ⟨h1, h2⟩ := hk
        subst h1; subst h2
        exact ⟨hmem, hsnap⟩
      · exact absurd hs (by simp)
    · obtain ⟨k', _, _, hs⟩ := mem_delete_part.mp h
      exact absurd hs (by simp)
  · rintro ⟨hmem, hsnap⟩
    left
    exact mem_source_part.mpr ⟨k, r, hmem, Or.inl ⟨hsnap, rfl⟩⟩

theorem update_mem_genStmts {source snap : Snap} {k : String} {r : Row} :
    Stmt.update k r ∈ genStmts source snap ↔
      ∃ tr, (k, r) ∈ source ∧ alookup k snap = some tr ∧ r ≠ tr := by
  rw [genStmts, List.mem_append]
  constructor
  · rintro (h | h)
    · obtain ⟨k', r', hmem, hrest⟩ := mem_source_part.mp h
      rcases hrest with ⟨_, hs⟩ | ⟨tr, hsnap, hne, hs⟩
      · exact absurd hs (by simp)
      · have hk : k' = k ∧ r' = r := by
          rw [Stmt.update.injEq] at hs
          exact ⟨hs.1.symm, hs.2.symm⟩
        obtain ⟨h1, h2⟩ := hk
        subst h1; subst h2
        exact ⟨tr, hmem, hsnap, hne⟩
    · obtain ⟨k', _, _, hs⟩ := mem_delete_part.mp h
      exact absurd hs (by simp)
  · rintro ⟨tr, hmem, hsnap, hne⟩
    left
    exact mem_source_part.mpr ⟨k, r, hmem, Or.inr ⟨tr, hsnap, hne, rfl⟩⟩

theorem markDeleted_mem_genStmts {source snap : Snap} {k : String} :
    Stmt.markDeleted k ∈ genStmts source snap ↔
      k ∈ keys snap ∧ alookup k source = none := by
  rw [genStmts, List.mem_append]
  constructor
  · rintro (h | h)
    · exact absurd h source_part_not_markDeleted
    · obtain ⟨k', hmem, hnone, hs⟩ := mem_delete_part.mp h
      have hk : k' = k := by
        rw [Stmt.markDeleted.injEq] at hs
        exact hs.symm
      subst hk
      exact ⟨hmem, hnone⟩
  · rintro ⟨hmem, hnone⟩
    right
    exact mem_delete_part.mpr ⟨k, hmem, hnone, rfl⟩

theorem insert_keys_genStmts {source snap : Snap} {k : String} :
    k ∈ insert_keys (genStmts source snap) ↔ k ∈ keys source ∧ alookup k snap = none := by
  rw [mem_insert_keys]
  constructor
  · rintro ⟨r, hr⟩
    obtain ⟨hmem, hsnap⟩ := insert_mem_genStmts.mp hr
    exact ⟨(mem_keys_iff k source).mpr ⟨r, hmem⟩, hsnap⟩
  · rintro ⟨hmem, hsnap⟩
    obtain ⟨r, hr⟩ := (mem_keys_iff k source).mp hmem
    exact ⟨r, insert_mem_genStmts.mpr ⟨hr, hsnap⟩⟩

theorem update_keys_genStmts {source snap : Snap} {k : String}
    (hs : (keys source).Nodup) :
    k ∈ update_keys (genStmts source snap) ↔
      ∃ r tr, alookup k source = some r ∧ alookup k snap = some tr ∧ r ≠ tr := by
  rw [mem_update_keys]
  constructor
  · rintro ⟨r, hr⟩
    obtain ⟨tr, hmem, hsnap, hne⟩ := update_mem_genStmts.mp hr
    exact ⟨r, tr, alookup_of_mem_nodup hs hmem, hsnap, hne⟩
  · rintro ⟨r, tr, hsrc, hsnap, hne⟩
    exact ⟨r, update_mem_genStmts.mpr ⟨tr, alookup_mem hsrc, hsnap, hne⟩⟩

theorem delete_keys_genStmts {source snap : Snap} {k : String} :
    k ∈ delete_keys (genStmts source snap) ↔
      k ∈ keys snap ∧ alookup k source = none := by
  rw [mem_delete_keys]
  exact markDeleted_mem_genStmts

/-- Any statement of the stream addressing key `k` pins down what
`sync_data` decided for `k`; in particular a key whose source row
equals its target-snapshot row is addressed by no statement at all. -/
theorem no_stmt_for_equal_key {source snap : Snap} {k : String} {r : Row}
    (hs : (keys source).Nodup)
    (hsrc : alookup k source = some r) (hsnap : alookup k snap = some r) :
    ∀ s ∈ genStmts source snap, stmt_key s ≠ k := by
  intro s hmem hk
  rcases List.mem_append.mp hmem with h | h
  · obtain ⟨k', r', hmem', hrest⟩ := mem_source_part.mp h
    rcases hrest with ⟨hn, hs'⟩ | ⟨tr, hsome, hne, hs'⟩
    · have : k' = k := by rw [hs'] at hk; exact hk
      subst this
      rw [hsnap] at hn
      exact absurd hn (by simp)
    · have : k' = k := by rw [hs'] at hk; exact hk
      subst this
      have hr' : r' = r := by
        have := alookup_of_mem_nodup hs hmem'
        rw [hsrc] at this
        simpa using this.symm
      rw [hsnap] at hsome
      simp only [Option.some.injEq] at hsome
      subst hsome
      exact hne (by rw [hr'])
  · obtain ⟨k', hmem', hnone, hs'⟩ := mem_delete_part.mp h
    have : k' = k := by rw [hs'] at hk; exact hk
    subst this
    rw [hsrc] at hnone
    exact absurd hnone (by simp)

/-- One run of `sync_data`'s apply phase under the single-transaction
discipline: fetch the target snapshot, compute and execute the
statement stream against a working state, then commit it; on any error
the transaction is rolled back, leaving the committed target table
untouched, and no counts are reported (the exception propagates). -/
def sync_run (now : Nat) (source : Snap) (tbl : Table) :
    Option (Nat × Nat × Nat) × Table :=
  let stmts := genStmts source (fetch_target_data tbl)
  match execAll now tbl stmts with
  | .error _ => (none, tbl)
  | .ok t2 =>
    (some ((insert_keys stmts).length, (update_keys stmts).length,
           (delete_keys stmts).length), t2)

theorem sync_run_ok {now : Nat} {source : Snap} {tbl tbl2 : Table}
    {c : Nat × Nat × Nat}
    (h : sync_run now source tbl = (some c, tbl2)) :
    execAll now tbl (genStmts source (fetch_target_data tbl)) = .ok tbl2 := by
  rw [sync_run] at h
  cases he : execAll now tbl (genStmts source (fetch_target_data tbl)) with
  | error e => rw [he] at h; exact absurd h (by simp)
  | ok t2 =>
    rw [he] at h
    simp only [Prod.mk.injEq] at h
    rw [h.2]

theorem exec_ok_not_deleted {now : Nat} {source : Snap} {tbl tbl2 : Table}
    {k : String} {r : Row} {e : TRow}
    (ht : (keys tbl).Nodup)
    (hexec : execAll now tbl (genStmts source (fetch_target_data tbl)) = .ok tbl2)
    (hsrc : alookup k source = some r) (htbl : alookup k tbl = some e) :
    e.operation_type ≠ "deleted" := by
  intro hdel
  have hsnap : alookup k (fetch_target_data tbl) = none := by
    rw [alookup_fetch ht k, htbl]
    simp [hdel]
  have hins : Stmt.insert k r ∈ genStmts source (fetch_target_data tbl) :=
    insert_mem_genStmts.mpr ⟨alookup_mem hsrc, hsnap⟩
  obtain ⟨l1, l2, hsplit⟩ := List.append_of_mem hins
  rw [hsplit] at hexec
  obtain ⟨tm, h1, h2⟩ := execAll_append_ok hexec
  obtain ⟨tm2, h3, h4⟩ := execAll_cons_ok h2
  have hin : (alookup k tm).isSome := execAll_isSome_mono h1 (by rw [htbl]; rfl)
  rw [execStmt, if_pos hin] at h3
  exact absurd h3 (by simp)

/-- The state of every key of the target table after a successful apply
phase: fresh source keys are inserted rows, differing keys are updated
rows, matching keys are untouched, vanished keys are soft-deleted, and
already-soft-deleted keys absent from the source are untouched. -/
theorem after_exec {now : Nat} {source : Snap} {tbl tbl2 : Table}
    (hs : (keys source).Nodup) (ht : (keys tbl).Nodup)
    (hexec : execAll now tbl (genStmts source (fetch_target_data tbl)) = .ok tbl2)
    (k : String) :
    alookup k tbl2 =
      match alookup k source, alookup k tbl with
      | some r, none => some ⟨r, "inserted", now⟩
      | some r, some e => if e.business = r then some e else some ⟨r, "updated", now⟩
      | none, some e =>
        if e.operation_type = "deleted" then some e
        else some ⟨e.business, "deleted", now⟩
      | none, none => none := by
  cases hsrc : alookup k source with
  | some r =>
    cases htbl : alookup k tbl with
    | none =>
      -- fresh key: a single plain INSERT runs for it
      have hsnap : alookup k (fetch_target_data tbl) = none := by
        rw [alookup_fetch ht k, htbl]
      obtain ⟨s1, s2, hsrceq, hk1, hk2⟩ := alookup_split hs hsrc
      have hstmts : genStmts source (fetch_target_data tbl) =
          source_part (fetch_target_data tbl) s1 ++
            (Stmt.insert k r ::
              (source_part (fetch_target_data tbl) s2 ++
                delete_part source (fetch_target_data tbl))) := by
        rw [genStmts, hsrceq, source_part_append, source_part, row_action_absent r hsnap]
        simp [List.append_assoc]
      rw [hstmts] at hexec
      obtain ⟨ta, h1, h2⟩ := execAll_append_ok hexec
      obtain ⟨tb, h3, h4⟩ := execAll_cons_ok h2
      have hfr2 : alookup k tbl2 = alookup k tb := by
        refine execAll_key_frame h4 ?_
        intro s hmem hk
        rcases List.mem_append.mp hmem with hm | hm
        · exact hk2 (hk ▸ source_part_key_mem hm)
        · have := (delete_part_key_mem hm).2
          rw [hk, hsrc] at this
          exact absurd this (by simp)
      rw [hfr2, (execStmt_insert_ok h3).2]
    | some e =>
      have hnd : e.operation_type ≠ "deleted" := exec_ok_not_deleted ht hexec hsrc htbl
      have hsnap : alookup k (fetch_target_data tbl) = some e.business := by
        rw [alookup_fetch ht k, htbl]
        simp [hnd]
      by_cases heq : e.business = r
      · -- matching tuples: sync_data touches nothing for this key
        have hsnap' : alookup k (fetch_target_data tbl) = some r := by
          rw [hsnap, heq]
        have hfr : alookup k tbl2 = alookup k tbl :=
          execAll_key_frame hexec (no_stmt_for_equal_key hs hsrc hsnap')
        rw [hfr, htbl]
        simp [heq]
      · -- differing tuples: a single UPDATE rewrites the row
        have hne : r ≠ e.business := fun h => heq h.symm
        obtain ⟨s1, s2, hsrceq, hk1, hk2⟩ := alookup_split hs hsrc
        have hstmts : genStmts source (fetch_target_data tbl) =
            source_part (fetch_target_data tbl) s1 ++
              (Stmt.update k r ::
                (source_part (fetch_target_data tbl) s2 ++
                  delete_part source (fetch_target_data tbl))) := by
          rw [genStmts, hsrceq, source_part_append, source_part,
            row_action_differs hsnap hne]
          simp [List.append_assoc]
        rw [hstmts] at hexec
        obtain ⟨ta, h1, h2⟩ := execAll_append_ok hexec
        obtain ⟨tb, h3, h4⟩ := execAll_cons_ok h2
        have hfr1 : alookup k ta = alookup k tbl := by
          refine execAll_key_frame h1 ?_
          intro s hmem hk
          exact hk1 (hk ▸ source_part_key_mem hmem)
        have hfr2 : alookup k tbl2 = alookup k tb := by
          refine execAll_key_frame h4 ?_
          intro s hmem hk
          rcases List.mem_append.mp hmem with hm | hm
          · exact hk2 (hk ▸ source_part_key_mem hm)
          · have := (delete_part_key_mem hm).2
            rw [hk, hsrc] at this
            exact absurd this (by simp)
        rw [hfr2, execStmt_update_ok h3, hfr1, htbl]
        simp [heq]
  | none =>
    cases htbl : alookup k tbl with
    | some e =>
      by_cases hdel : e.operation_type = "deleted"
      · -- already soft-deleted and absent from source: untouched
        have hsnap : alookup k (fetch_target_data tbl) = none := by
          rw [alookup_fetch ht k, htbl]
          simp [hdel]
        have hfr : alookup k tbl2 = alookup k tbl := by
          refine execAll_key_frame hexec ?_
          intro s hmem hk
          rcases List.mem_append.mp hmem with hm | hm
          · have := source_part_key_mem hm
            rw [hk] at this
            exact ((alookup_eq_none k source).mp hsrc) this
          · have := (delete_part_key_mem hm).1
            rw [hk] at this
            exact ((alookup_eq_none k (fetch_target_data tbl)).mp hsnap) this
        rw [hfr, htbl]
        simp [hdel]
      · -- live key that vanished from the source: one soft delete
        have hsnap : alookup k (fetch_target_data tbl) = some e.business := by
          rw [alookup_fetch ht k, htbl]
          simp [hdel]
        obtain ⟨n1, n2, hsnapeq, hn1, hn2⟩ := alookup_split (nodup_fetch ht) hsnap
        have hstmts : genStmts source (fetch_target_data tbl) =
            (source_part (fetch_target_data tbl) source ++ delete_part source n1) ++
              (Stmt.markDeleted k :: delete_part source n2) := by
          rw [genStmts, hsnapeq, delete_part_append, delete_part, del_action_absent hsrc]
          simp [List.append_assoc]
        rw [hstmts] at hexec
        obtain ⟨ta, h1, h2⟩ := execAll_append_ok hexec
        obtain ⟨tb, h3, h4⟩ := execAll_cons_ok h2
        have hfr1 : alookup k ta = alookup k tbl := by
          refine execAll_key_frame h1 ?_
          intro s hmem hk
          rcases List.mem_append.mp hmem with hm | hm
          · have := source_part_key_mem hm
            rw [hk] at this
            exact ((alookup_eq_none k source).mp hsrc) this
          · exact hn1 (hk ▸ (delete_part_key_mem hm).1)
        have hfr2 : alookup k tbl2 = alookup k tb := by
          refine execAll_key_frame h4 ?_
          intro s hmem hk
          exact hn2 (hk ▸ (delete_part_key_mem hmem).1)
        rw [hfr2, execStmt_markDeleted_ok h3, hfr1, htbl]
        simp [hdel]
    | none =>
      have hsnap : alookup k (fetch_target_data tbl) = none := by
        rw [alookup_fetch ht k, htbl]
      have hfr : alookup k tbl2 = alookup k tbl := by
        refine execAll_key_frame hexec ?_
        intro s hmem hk
        rcases List.mem_append.mp hmem with hm | hm
        · have := source_part_key_mem hm
          rw [hk] at this
          exact ((alookup_eq_none k source).mp hsrc) this
        · have := (delete_part_key_mem hm).1
          rw [hk] at this
          exact ((alookup_eq_none k (fetch_target_data tbl)).mp hsnap) this
      rw [hfr, htbl]

/-- After a successful run, the target snapshot (non-deleted rows,
business columns) coincides with the source snapshot on every key. -/
theorem after_run_snapshot {now : Nat} {source : Snap} {tbl tbl2 : Table}
    (hs : (keys source).Nodup) (ht : (keys tbl).Nodup)
    (hexec : execAll now tbl (genStmts source (fetch_target_data tbl)) = .ok tbl2)
    (k : String) :
    alookup k (fetch_target_data tbl2) = alookup k source := by
  have hnd2 : (keys tbl2).Nodup := execAll_nodup hexec ht
  rw [alookup_fetch hnd2 k, after_exec hs ht hexec k]
  cases hsrc : alookup k source with
  | some r =>
    cases htbl : alookup k tbl with
    | none =>
      simp only []
      rw [if_neg (by decide)]
    | some e =>
      have hnd := exec_ok_not_deleted ht hexec hsrc htbl
      by_cases heq : e.business = r
      · simp only [if_pos heq]
        rw [if_neg hnd, heq]
      · simp only [if_neg heq]
        rw [if_neg (by decide)]
  | none =>
    cases htbl : alookup k tbl with
    | some e =>
      by_cases hdel : e.operation_type = "deleted"
      · simp only [if_pos hdel]
      · simp only [if_neg hdel]
        rw [if_pos (by decide)]
    | none => rfl

theorem source_part_eq_nil {snap : Snap} {l : Snap}
    (h : ∀ k r, (k, r) ∈ l → alookup k snap = some r) : source_part snap l = [] := by
  induction l with
  | nil => rfl
  | cons e rest ih =>
    cases e with
    | mk k r =>
      rw [source_part, row_action_equal (h k r (List.mem_cons_self _ _)) rfl]
      rw [List.nil_append]
      exact ih (fun k' r' hm => h k' r' (List.mem_cons_of_mem _ hm))

theorem delete_part_eq_nil {source : Snap} {l : Snap}
    (h : ∀ k r, (k, r) ∈ l → (alookup k source).isSome) : delete_part source l = [] := by
  induction l with
  | nil => rfl
  | cons e rest ih =>
    cases e with
    | mk k r =>
      rw [delete_part, del_action_present (h k r (List.mem_cons_self _ _))]
      rw [List.nil_append]
      exact ih (fun k' r' hm => h k' r' (List.mem_cons_of_mem _ hm))

/-- A second `sync_data` run over an unchanged source and the target
produced by a first successful run generates no statements at all. -/
theorem second_run_no_stmts {now : Nat} {source : Snap} {tbl tbl2 : Table}
    (hs : (keys source).Nodup) (ht : (keys tbl).Nodup)
    (hexec : execAll now tbl (genStmts source (fetch_target_data tbl)) = .ok tbl2) :
    genStmts source (fetch_target_data tbl2) = [] := by
  rw [genStmts]
  rw [source_part_eq_nil (fun k r hm => by
    rw [after_run_snapshot hs ht hexec k]
    exact alookup_of_mem_nodup hs hm)]
  rw [delete_part_eq_nil (fun k r hm => by
    have : (alookup k (fetch_target_data tbl2)).isSome :=
      (alookup_isSome_iff _ _).mpr ((mem_keys_iff _ _).mpr ⟨r, hm⟩)
    rw [after_run_snapshot hs ht hexec k] at this
    exact this)]
  rfl

theorem source_part_filter_markDeleted (snap : Snap) (l : Snap) (k : String) :
    (source_part snap l).filter (fun s => decide (s = Stmt.markDeleted k)) = [] := by
  rw [List.filter_eq_nil_iff]
  intro s hs hdec
  exact source_part_not_markDeleted ((of_decide_eq_true hdec) ▸ hs)

theorem delete_part_filter_one {source : Snap} {l : Snap} {k : String}
    (hnd : (keys l).Nodup) (hk : k ∈ keys l) (habs : alookup k source = none) :
    ((delete_part source l).filter (fun s => decide (s = Stmt.markDeleted k))).length
      = 1 := by
  induction l with
  | nil => simp [keys] at hk
  | cons e rest ih =>
    cases e with
    | mk k' r' =>
      simp only [keys, List.map_cons, List.nodup_cons] at hnd
      rw [delete_part, List.filter_append, List.length_append]
      by_cases he : k' = k
      · subst he
        rw [del_action_absent habs]
        have hrest : (delete_part source rest).filter
            (fun s => decide (s = Stmt.markDeleted k')) = [] := by
          rw [List.filter_eq_nil_iff]
          intro s hs hdec
          have hseq : s = Stmt.markDeleted k' := of_decide_eq_true hdec
          have hmem := (delete_part_key_mem (hseq ▸ hs)).1
          exact hnd.1 hmem
        rw [hrest]
        simp
      · have hhead : (del_action source k').filter
            (fun s => decide (s = Stmt.markDeleted k)) = [] := by
          rw [List.filter_eq_nil_iff]
          intro s hs hdec
          have hseq : s = Stmt.markDeleted k := of_decide_eq_true hdec
          rw [del_action] at hs
          by_cases hp : (alookup k' source).isSome
          · rw [if_pos hp] at hs
            simp at hs
          · rw [if_neg hp] at hs
            simp only [List.mem_singleton] at hs
            rw [hs] at hseq
            exact he (by injection hseq)
        rw [hhead]
        have hkr : k ∈ keys rest := by
          have : k = k' ∨ k ∈ keys rest := by
            simpa [keys] using hk
          rcases this with h1 | h1
          · exact absurd h1.symm he
          · exact h1
        simp only [List.length_nil, Nat.zero_add]
        exact ih hnd.2 hkr

theorem genStmts_filter_markDeleted_one {source snap : Snap} {k : String}
    (hnd : (keys snap).Nodup) (hk : k ∈ keys snap) (habs : alookup k source = none) :
    ((genStmts source snap).filter (fun s => decide (s = Stmt.markDeleted k))).length
      = 1 := by
  rw [genStmts, List.filter_append, List.length_append,
    source_part_filter_markDeleted]
  simp only [List.length_nil, Nat.zero_add]
  exact delete_part_filter_one hnd hk habs

/-- C1: the diff classifies every primary key correctly — a source key
absent from the target snapshot is an insert; a key in both snapshots is
an update exactly when the business tuples differ; a target-snapshot key
absent from the source is a delete; the three classes are pairwise
disjoint; and a key whose tuples match is addressed by no statement. -/
theorem C1_diff_classification (source snap : Snap) (hs : (keys source).Nodup) :
    (∀ k, k ∈ insert_keys (genStmts source snap) ↔
      k ∈ keys source ∧ k ∉ keys snap) ∧
    (∀ k, k ∈ update_keys (genStmts source snap) ↔
      ∃ r tr, alookup k source = some r ∧ alookup k snap = some tr ∧ r ≠ tr) ∧
    (∀ k, k ∈ delete_keys (genStmts source snap) ↔
      k ∈ keys snap ∧ k ∉ keys source) ∧
    (∀ k, ¬(k ∈ insert_keys (genStmts source snap) ∧
            k ∈ update_keys (genStmts source snap))) ∧
    (∀ k, ¬(k ∈ insert_keys (genStmts source snap) ∧
            k ∈ delete_keys (genStmts source snap))) ∧
    (∀ k, ¬(k ∈ update_keys (genStmts source snap) ∧
            k ∈ delete_keys (genStmts source snap))) ∧
    (∀ k r, alookup k source = some r → alookup k snap = some r →
      ∀ s ∈ genStmts source snap, stmt_key s ≠ k) := by
  refine ⟨?_, ?_, ?_, ?_, ?_, ?_, ?_⟩
  · intro k
    rw [insert_keys_genStmts, alookup_eq_none]
  · intro k
    exact update_keys_genStmts hs
  · intro k
    rw [delete_keys_genStmts, alookup_eq_none]
  · rintro k ⟨hi, hu⟩
    obtain ⟨_, hni⟩ := insert_keys_genStmts.mp hi
    obtain ⟨r, tr, _, hsome, _⟩ := (update_keys_genStmts hs).mp hu
    rw [hni] at hsome
    exact absurd hsome (by simp)
  · rintro k ⟨hi, hd⟩
    obtain ⟨hmem, _⟩ := insert_keys_genStmts.mp hi
    obtain ⟨_, hnone⟩ := delete_keys_genStmts.mp hd
    exact ((alookup_eq_none k source).mp hnone) hmem
  · rintro k ⟨hu, hd⟩
    obtain ⟨r, tr, hsome, _, _⟩ := (update_keys_genStmts hs).mp hu
    obtain ⟨_, hnone⟩ := delete_keys_genStmts.mp hd
    rw [hnone] at hsome
    exact absurd hsome (by simp)
  · intro k r hsrc hsnap
    exact no_stmt_for_equal_key hs hsrc hsnap

/-- C1 witness: the classification at a concrete pair of snapshots. -/
theorem C1_diff_classification_witness :
    (keys [("a", [some "1"]), ("c", [some "2"])] : List String).Nodup ∧
    ("a" ∈ insert_keys (genStmts [("a", [some "1"]), ("c", [some "2"])]
        [("c", [some "9"]), ("d", [some "3"])]) ↔
      "a" ∈ keys [("a", [some "1"]), ("c", [some "2"])] ∧
      "a" ∉ keys [("c", [some "9"]), ("d", [some "3"])]) :=
  ⟨by decide,
   (C1_diff_classification [("a", [some "1"]), ("c", [some "2"])]
     [("c", [some "9"]), ("d", [some "3"])] (by decide)).1 "a"⟩

/-- C2: a run whose apply phase fails reports nothing and leaves the
committed target table exactly as it was — the transaction is rolled
back, no partially-applied diff persists. -/
theorem C2_rollback_on_error (now : Nat) (source : Snap) (tbl : Table)
    (h : (sync_run now source tbl).1 = none) :
    (sync_run now source tbl).2 = tbl := by
  rw [sync_run] at h ⊢
  cases he : execAll now tbl (genStmts source (fetch_target_data tbl)) with
  | error e => rfl
  | ok t2 =>
    rw [he] at h
    exact absurd h (by simp)

/-- C2 witness: a concrete failing run (a soft-deleted key reappearing
in the source makes the plain INSERT hit a duplicate key) leaves the
target table untouched. -/
theorem C2_rollback_on_error_witness :
    (sync_run 1 [("k", [some "v"])]
        [("k", ⟨[some "v"], "deleted", 0⟩)]).1 = none ∧
    (sync_run 1 [("k", [some "v"])]
        [("k", ⟨[some "v"], "deleted", 0⟩)]).2 =
      [("k", ⟨[some "v"], "deleted", 0⟩)] :=
  ⟨by decide,
   C2_rollback_on_error 1 [("k", [some "v"])]
     [("k", ⟨[some "v"], "deleted", 0⟩)] (by decide)⟩

/-- C3: running the sync twice with the source unchanged and no other
writer yields zero inserts, zero updates and zero deletes on the second
run (which also leaves the target exactly as the first run left it). -/
theorem C3_second_run_zero_counts (now now2 : Nat) (source : Snap)
    (tbl tbl2 : Table) (c : Nat × Nat × Nat)
    (hs : (keys source).Nodup) (ht : (keys tbl).Nodup)
    (h1 : sync_run now source tbl = (some c, tbl2)) :
    sync_run now2 source tbl2 = (some (0, 0, 0), tbl2) := by
  have hexec := sync_run_ok h1
  have hnil := second_run_no_stmts hs ht hexec
  rw [sync_run, hnil]
  rfl

/-- C3 witness: a concrete first run into an empty target followed by a
second run with all-zero counts. -/
theorem C3_second_run_zero_counts_witness :
    (keys [("a", [some "x"]), ("b", [(none : Val)])] : List String).Nodup ∧
    (keys ([] : Table) : List String).Nodup ∧
    sync_run 5 [("a", [some "x"]), ("b", [(none : Val)])] [] =
      (some (2, 0, 0),
        [("a", ⟨[some "x"], "inserted", 5⟩), ("b", ⟨[(none : Val)], "inserted", 5⟩)]) ∧
    sync_run 7 [("a", [some "x"]), ("b", [(none : Val)])]
        [("a", ⟨[some "x"], "inserted", 5⟩), ("b", ⟨[(none : Val)], "inserted", 5⟩)] =
      (some (0, 0, 0),
        [("a", ⟨[some "x"], "inserted", 5⟩), ("b", ⟨[(none : Val)], "inserted", 5⟩)]) :=
  ⟨by decide, by decide, by decide,
   C3_second_run_zero_counts 5 7 [("a", [some "x"]), ("b", [(none : Val)])] []
     [("a", ⟨[some "x"], "inserted", 5⟩), ("b", ⟨[(none : Val)], "inserted", 5⟩)]
     (2, 0, 0) (by decide) (by decide) (by decide)⟩

/-- C4: a key present in the target snapshot and absent from the source
is soft-deleted by exactly one single-row statement: after a successful
run the row is still physically present, its business columns unchanged,
`operation_type = 'deleted'` and `last_updated` set to the run's
timestamp. -/
theorem C4_soft_delete (now : Nat) (source : Snap) (tbl tbl2 : Table)
    (c : Nat × Nat × Nat) (k : String) (e : TRow)
    (hs : (keys source).Nodup) (ht : (keys tbl).Nodup)
    (hrun : sync_run now source tbl = (some c, tbl2))
    (hk : alookup k tbl = some e) (hlive : e.operation_type ≠ "deleted")
    (habs : alookup k source = none) :
    alookup k tbl2 = some ⟨e.business, "deleted", now⟩ ∧
    ((genStmts source (fetch_target_data tbl)).filter
      (fun s => decide (s = Stmt.markDeleted k))).length = 1 := by
  have hexec := sync_run_ok hrun
  constructor
  · rw [after_exec hs ht hexec k, habs, hk]
    simp [hlive]
  · have hsnap : alookup k (fetch_target_data tbl) = some e.business := by
      rw [alookup_fetch ht k, hk]
      simp [hlive]
    have hmem : k ∈ keys (fetch_target_data tbl) :=
      (alookup_isSome_iff _ _).mp (by rw [hsnap]; rfl)
    exact genStmts_filter_markDeleted_one (nodup_fetch ht) hmem habs

/-- C4 witness: a concrete run soft-deleting the one key that vanished
from the source. -/
theorem C4_soft_delete_witness :
    (keys [("a", [some "x"])] : List String).Nodup ∧
    (keys ([("a", ⟨[some "x"], "inserted", 1⟩),
        ("b", ⟨[some "y"], "inserted", 1⟩)] : Table) : List String).Nodup ∧
    sync_run 9 [("a", [some "x"])]
        [("a", ⟨[some "x"], "inserted", 1⟩), ("b", ⟨[some "y"], "inserted", 1⟩)] =
      (some (0, 0, 1),
        [("a", ⟨[some "x"], "inserted", 1⟩), ("b", ⟨[some "y"], "deleted", 9⟩)]) ∧
    alookup "b" ([("a", ⟨[some "x"], "inserted", 1⟩),
        ("b", ⟨[some "y"], "inserted", 1⟩)] : Table)
      = some ⟨[some "y"], "inserted", 1⟩ ∧
    (alookup "b"
        ([("a", ⟨[some "x"], "inserted", 1⟩), ("b", ⟨[some "y"], "deleted", 9⟩)] : Table) =
      some ⟨[some "y"], "deleted", 9⟩ ∧
    ((genStmts [("a", [some "x"])]
        (fetch_target_data
          [("a", ⟨[some "x"], "inserted", 1⟩), ("b", ⟨[some "y"], "inserted", 1⟩)])).filter
      (fun s => decide (s = Stmt.markDeleted "b"))).length = 1) :=
  ⟨by decide, by decide, by decide, by decide,
   C4_soft_delete 9 [("a", [some "x"])]
     [("a", ⟨[some "x"], "inserted", 1⟩), ("b", ⟨[some "y"], "inserted", 1⟩)]
     [("a", ⟨[some "x"], "inserted", 1⟩), ("b", ⟨[some "y"], "deleted", 9⟩)]
     (0, 0, 1) "b" ⟨[some "y"], "inserted", 1⟩
     (by decide) (by decide) (by decide) (by decide) (by decide) (by decide)⟩

/-- C6 counterexample: `sync_data` does not batch inserts.  With two
fresh source rows and an empty target it issues two INSERT statements of
one row each, so the first issued insert statement is not the last and
carries 1 row, not the claimed batch size of 500. -/
theorem C6_no_batching_counterexample :
    genStmts [("k1", [some "a"]), ("k2", [some "b"])] [] =
      [Stmt.insert "k1" [some "a"], Stmt.insert "k2" [some "b"]] ∧
    (insert_keys (genStmts [("k1", [some "a"]), ("k2", [some "b"])] [])).length = 2 ∧
    stmt_row_count (Stmt.insert "k1" [some "a"]) = 1 ∧
    ¬stmt_row_count (Stmt.insert "k1" [some "a"]) = 500 := by
  decide

/-- C6 (amended): rows classified for insertion are written one per
statement — every issued insert statement carries exactly one row,
namely the business tuple of its source row, and executing it stores
that tuple with `operation_type = 'inserted'` (and the timestamp-column
default for `last_updated`). -/
theorem C6_insert_one_row_per_stmt (source snap : Snap) (k : String) (r : Row)
    (h : Stmt.insert k r ∈ genStmts source snap) :
    stmt_row_count (Stmt.insert k r) = 1 ∧
    (k, r) ∈ source ∧ alookup k snap = none ∧
    ∀ (now : Nat) (tbl tbl2 : Table), execStmt now tbl (.insert k r) = .ok tbl2 →
      alookup k tbl2 = some ⟨r, "inserted", now⟩ := by
  obtain ⟨hmem, hnone⟩ := insert_mem_genStmts.mp h
  exact ⟨rfl, hmem, hnone, fun now tbl tbl2 hex => (execStmt_insert_ok hex).2⟩

/-- C6 witness: the amended statement at a concrete insert. -/
theorem C6_insert_one_row_per_stmt_witness :
    Stmt.insert "k1" [some "a"] ∈ genStmts [("k1", [some "a"])] [] ∧
    (stmt_row_count (Stmt.insert "k1" [some "a"]) = 1 ∧
     ("k1", [some "a"]) ∈ [("k1", [some "a"])] ∧
     alookup "k1" ([] : Snap) = none ∧
     ∀ (now : Nat) (tbl tbl2 : Table),
       execStmt now tbl (.insert "k1" [some "a"]) = .ok tbl2 →
         alookup "k1" tbl2 = some ⟨[some "a"], "inserted", now⟩) :=
  ⟨by decide, C6_insert_one_row_per_stmt [("k1", [some "a"])] [] "k1" [some "a"]
    (by decide)⟩

/-- C7: the target snapshot keeps only rows with
`operation_type ≠ 'deleted'`; a soft-deleted key that reappears in the
source is therefore invisible to the diff's update path and is
classified as an insert — a plain INSERT for a key whose row is still
physically present in the target table. -/
theorem C7_resurrected_key_is_insert (source : Snap) (tbl : Table)
    (k : String) (e : TRow) (r : Row)
    (ht : (keys tbl).Nodup)
    (hk : alookup k tbl = some e) (hdel : e.operation_type = "deleted")
    (hsrc : alookup k source = some r) :
    (∀ p ∈ fetch_target_data tbl,
      ∃ e', (p.1, e') ∈ tbl ∧ e'.operation_type ≠ "deleted" ∧ e'.business = p.2) ∧
    alookup k (fetch_target_data tbl) = none ∧
    Stmt.insert k r ∈ genStmts source (fetch_target_data tbl) ∧
    (∀ r', Stmt.update k r' ∉ genStmts source (fetch_target_data tbl)) ∧
    (alookup k tbl).isSome := by
  have hsnap : alookup k (fetch_target_data tbl) = none := by
    rw [alookup_fetch ht k, hk]
    simp [hdel]
  refine ⟨?_, hsnap, insert_mem_genStmts.mpr ⟨alookup_mem hsrc, hsnap⟩, ?_,
    by rw [hk]; rfl⟩
  · intro p hp
    simp only [fetch_target_data, List.mem_map, List.mem_filter] at hp
    obtain ⟨e', ⟨hmem, hop⟩, hpe⟩ := hp
    refine ⟨e'.2, ?_, of_decide_eq_true hop, ?_⟩
    · rw [← hpe]
      exact hmem
    · rw [← hpe]
  · intro r' hu
    obtain ⟨tr, _, hsome, _⟩ := update_mem_genStmts.mp hu
    rw [hsnap] at hsome
    exact absurd hsome (by simp)

/-- C7 witness: a concrete soft-deleted key reappearing in the source. -/
theorem C7_resurrected_key_is_insert_witness :
    (keys ([("k", ⟨[some "old"], "deleted", 3⟩)] : Table) : List String).Nodup ∧
    alookup "k" ([("k", ⟨[some "old"], "deleted", 3⟩)] : Table) =
      some ⟨[some "old"], "deleted", 3⟩ ∧
    (⟨[some "old"], "deleted", 3⟩ : TRow).operation_type = "deleted" ∧
    alookup "k" [("k", [some "new"])] = some [some "new"] ∧
    (alookup "k" (fetch_target_data ([("k", ⟨[some "old"], "deleted", 3⟩)] : Table)) =
        none ∧
      Stmt.insert "k" [some "new"] ∈
        genStmts [("k", [some "new"])]
          (fetch_target_data ([("k", ⟨[some "old"], "deleted", 3⟩)] : Table)) ∧
      (alookup "k" ([("k", ⟨[some "old"], "deleted", 3⟩)] : Table)).isSome) :=
  ⟨by decide, by decide, by decide, by decide,
   (C7_resurrected_key_is_insert [("k", [some "new"])]
       [("k", ⟨[some "old"], "deleted", 3⟩)] "k" ⟨[some "old"], "deleted", 3⟩
       [some "new"] (by decide) (by decide) (by decide) (by decide)).2.1,
   (C7_resurrected_key_is_insert [("k", [some "new"])]
       [("k", ⟨[some "old"], "deleted", 3⟩)] "k" ⟨[some "old"], "deleted", 3⟩
       [some "new"] (by decide) (by decide) (by decide) (by decide)).2.2.1,
   (C7_resurrected_key_is_insert [("k", [some "new"])]
       [("k", ⟨[some "old"], "deleted", 3⟩)] "k" ⟨[some "old"], "deleted", 3⟩
       [some "new"] (by decide) (by decide) (by decide) (by decide)).2.2.2.2⟩

/-- C8: a business column that is NULL in both the source row and the
target row is equal at that position (Python `None == None`), so a key
whose tuples agree elementwise — NULL matching NULL — is never
classified as an update. -/
theorem C8_null_equals_null (source snap : Snap) (k : String) (r tr : Row)
    (hs : (keys source).Nodup)
    (hsrc : alookup k source = some r) (hsnap : alookup k snap = some tr)
    (helem : ∀ i : Nat, r[i]? = tr[i]? ∨ (r[i]? = some none ∧ tr[i]? = some none)) :
    k ∉ update_keys (genStmts source snap) := by
  have hrt : r = tr := by
    apply List.ext_getElem?
    intro i
    rcases helem i with h | ⟨h1, h2⟩
    · exact h
    · rw [h1, h2]
  intro hu
  obtain ⟨r', tr', hsrc', hsnap', hne⟩ := (update_keys_genStmts hs).mp hu
  rw [hsrc] at hsrc'
  rw [hsnap] at hsnap'
  simp only [Option.some.injEq] at hsrc' hsnap'
  exact hne (by rw [← hsrc', ← hsnap', hrt])

/-- C8 witness: a key whose first column is NULL on both sides and whose
other column matches is not an update. -/
theorem C8_null_equals_null_witness :
    (keys [("k", [none, some "a"])] : List String).Nodup ∧
    alookup "k" ([("k", [none, some "a"])] : Snap) = some [none, some "a"] ∧
    alookup "k" ([("k", [none, some "a"]), ("z", [some "q", none])] : Snap) =
      some [none, some "a"] ∧
    "k" ∉ update_keys (genStmts [("k", [none, some "a"])]
      [("k", [none, some "a"]), ("z", [some "q", none])]) :=
  ⟨by decide, by decide, by decide,
   C8_null_equals_null [("k", [none, some "a"])]
     [("k", [none, some "a"]), ("z", [some "q", none])] "k"
     [none, some "a"] [none, some "a"] (by decide) (by decide) (by decide)
     (by
       intro i
       match i with
       | 0 => exact Or.inr ⟨rfl, rfl⟩
       | 1 => exact Or.inl rfl
       | n + 2 => exact Or.inl rfl)⟩

/-! ### Schema bootstrap: `create_target_table_if_not_exists`

The code fetches the source's `SHOW CREATE TABLE` text and rewrites it
textually: every double quote becomes a backtick, the table-name clause
gains `IF NOT EXISTS`, and the two tracking columns are inserted at the
position found by the regex
`(.*)(\s*\)\s*(ENGINE.*)?$)` with DOTALL (the greedy group takes the
longest prefix whose remainder is optional whitespace, a closing
parenthesis, optional whitespace and an optional ENGINE clause).
No foreign-key clause is touched. -/

/-- A single quote character (used inside the injected column text). -/
def sq : Char := Char.ofNat 39

/-- `create_statement.replace('"', '`')`. -/
def replace_quotes (cs : List Char) : List Char :=
  cs.map (fun c => if c = Char.ofNat 34 then Char.ofNat 96 else c)

/-- Scanner for Python `str.replace`: at skip `n + 1` the character
belongs to an already-replaced match and is dropped; at skip `0` a match
of `pat` emits `rep` and schedules the rest of the match for dropping,
and otherwise the character is kept. -/
def replace_aux (pat rep : List Char) : List Char → Nat → List Char
  | [], _ => []
  | _ :: cs, Nat.succ skip => replace_aux pat rep cs skip
  | c :: cs, 0 =>
    if 0 < pat.length ∧ pat.isPrefixOf (c :: cs)
    then rep ++ replace_aux pat rep cs (pat.length - 1)
    else c :: replace_aux pat rep cs 0

/-- Python `str.replace` on character lists: leftmost, non-overlapping,
every occurrence. -/
def replace_all (pat rep cs : List Char) : List Char :=
  replace_aux pat rep cs 0

/-- Substring test (used to state what the rewritten DDL contains). -/
def contains_sub (pat : List Char) : List Char → Bool
  | [] => pat.isEmpty
  | c :: cs => pat.isPrefixOf (c :: cs) || contains_sub pat cs

/-- Python `\s` on ASCII text. -/
def is_py_space (c : Char) : Bool :=
  c = ' ' || c = '\t' || c = '\n' || c = '\r' || c = '\x0b' || c = '\x0c'

/-- Whether a suffix of the statement matches
`\s*\)\s*(ENGINE.*)?$` (with DOTALL; `$` also matches before one final
newline, which changes nothing here because `\s*` absorbs it). -/
def close_match (cs : List Char) : Bool :=
  match cs.dropWhile is_py_space with
  | c :: rest =>
    if c = ')' then
      let rest2 := rest.dropWhile is_py_space
      rest2.isEmpty || "ENGINE".toList.isPrefixOf rest2
    else false
  | [] => false

/-- The split position of the greedy `(.*)` group: the largest index
whose remainder matches the closing pattern, scanning from the end. -/
def find_split_from (cs : List Char) : Nat → Option Nat
  | 0 => if close_match cs then some 0 else none
  | i + 1 =>
    if close_match (cs.drop (i + 1)) then some (i + 1) else find_split_from cs i

def find_split (cs : List Char) : Option Nat :=
  find_split_from cs cs.length

/-- The two tracking-column definitions the code splices in before the
closing parenthesis. -/
def tracking_cols : List Char :=
  ",\n  `operation_type` VARCHAR(10) DEFAULT ".toList ++ [sq] ++
    "inserted".toList ++ [sq] ++
    ",\n  `last_updated` TIMESTAMP DEFAULT CURRENT_TIMESTAMP ON UPDATE CURRENT_TIMESTAMP".toList

/-- Insert the tracking columns at the regex match; when the pattern
does not match, the statement is left unchanged. -/
def insert_tracking (cs : List Char) : List Char :=
  match find_split cs with
  | none => cs
  | some i => cs.take i ++ tracking_cols ++ cs.drop i

/-- `CREATE TABLE ` followed by the backtick-quoted table name. -/
def create_pat (t : List Char) : List Char :=
  "CREATE TABLE ".toList ++ [Char.ofNat 96] ++ t ++ [Char.ofNat 96]

def create_rep (t : List Char) : List Char :=
  "CREATE TABLE IF NOT EXISTS ".toList ++ [Char.ofNat 96] ++ t ++ [Char.ofNat 96]

/-- The statement `create_target_table_if_not_exists` executes against
the target, as a function of the table name and the source's verbatim
creation DDL. -/
def executed_create_statement (t ddl : List Char) : List Char :=
  insert_tracking (replace_all (create_pat t) (create_rep t) (replace_quotes ddl))

theorem find_split_from_succ (cs : List Char) (i : Nat) :
    find_split_from cs (i + 1) =
      if close_match (cs.drop (i + 1)) then some (i + 1) else find_split_from cs i := by
  rw [find_split_from]

theorem find_split_from_zero (cs : List Char) :
    find_split_from cs 0 = if close_match cs then some 0 else none := by
  rw [find_split_from]

/-- A tail matching `\s*(ENGINE.*)?$` makes `\s*\)\s*(ENGINE.*)?$` match
at the parenthesis. -/
theorem close_match_cons_close {suf : List Char}
    (hsuf : ((suf.dropWhile is_py_space).isEmpty
      || "ENGINE".toList.isPrefixOf (suf.dropWhile is_py_space)) = true) :
    close_match (')' :: suf) = true := by
  rw [close_match]
  have hdw : (')' :: suf).dropWhile is_py_space = ')' :: suf := by
    rw [List.dropWhile_cons]
    simp [is_py_space]
  rw [hdw]
  show (if (')' : Char) = ')' then
      ((suf.dropWhile is_py_space).isEmpty
        || "ENGINE".toList.isPrefixOf (suf.dropWhile is_py_space))
    else false) = true
  rw [if_pos rfl]
  exact hsuf

theorem mem_of_mem_dropWhile {p : Char → Bool} {l : List Char} {c : Char}
    (h : c ∈ l.dropWhile p) : c ∈ l := by
  induction l with
  | nil => simp at h
  | cons a as ih =>
    rw [List.dropWhile_cons] at h
    by_cases hp : p a
    · rw [if_pos hp] at h
      exact List.mem_cons_of_mem _ (ih h)
    · rw [if_neg (by simp [hp])] at h
      exact h

/-- The closing pattern cannot match inside a tail that holds no closing
parenthesis: the greedy group therefore stops at the final one. -/
theorem close_match_no_close_paren {l : List Char} (h : ')' ∉ l) (m : Nat) :
    close_match (l.drop m) = false := by
  rw [close_match]
  cases hd : (l.drop m).dropWhile is_py_space with
  | nil => rfl
  | cons c rest =>
    have hc : c ∈ l := by
      have h1 : c ∈ (l.drop m).dropWhile is_py_space := by
        rw [hd]
        exact List.mem_cons_self c rest
      exact List.mem_of_mem_drop (mem_of_mem_dropWhile h1)
    have hcne : ¬(c = ')') := fun hcp => h (hcp ▸ hc)
    show (if c = ')' then
        ((rest.dropWhile is_py_space).isEmpty
          || "ENGINE".toList.isPrefixOf (rest.dropWhile is_py_space))
      else false) = false
    rw [if_neg hcne]

/-- The greedy scan returns the one matching index when everything above
it fails. -/
theorem find_split_from_eq (cs : List Char) (i : Nat)
    (hi : close_match (cs.drop i) = true) :
    ∀ i0, i ≤ i0 →
      (∀ j, i < j → j ≤ i0 → close_match (cs.drop j) = false) →
      find_split_from cs i0 = some i := by
  intro i0
  induction i0 with
  | zero =>
    intro hle _
    have hi0 : i = 0 := Nat.le_zero.mp hle
    subst hi0
    rw [find_split_from_zero, List.drop_zero] at *
    rw [hi]
    rfl
  | succ j ih =>
    intro hle habove
    rw [find_split_from_succ]
    by_cases hij : i = j + 1
    · subst hij
      rw [hi]
      rfl
    · have hfalse : close_match (cs.drop (j + 1)) = false :=
        habove (j + 1) (by omega) (Nat.le_refl _)
      rw [hfalse]
      simp only [Bool.false_eq_true, if_false]
      exact ih (by omega) (fun j' h1 h2 => habove j' h1 (by omega))

/-- The regex splits exactly before the final closing parenthesis when
the tail after it matches `\s*(ENGINE.*)?$` and holds no further closing
parenthesis. -/
theorem find_split_close_suffix (pre suf : List Char)
    (hclose : close_match (')' :: suf) = true)
    (hnop : ')' ∉ suf) :
    find_split (pre ++ ')' :: suf) = some pre.length := by
  rw [find_split]
  apply find_split_from_eq
  · rw [List.drop_left]
    exact hclose
  · simp
  · intro j h1 h2
    obtain ⟨m, hm⟩ : ∃ m, j = pre.length + (m + 1) := ⟨j - pre.length - 1, by omega⟩
    subst hm
    have hdrop : (pre ++ ')' :: suf).drop (pre.length + (m + 1)) = suf.drop m := by
      calc (pre ++ ')' :: suf).drop (pre.length + (m + 1))
          = ((pre ++ ')' :: suf).drop pre.length).drop (m + 1) :=
            (List.drop_drop (m + 1) pre.length _).symm
        _ = (')' :: suf).drop (m + 1) := by rw [List.drop_left]
        _ = suf.drop m := List.drop_succ_cons
    rw [hdrop]
    exact close_match_no_close_paren hnop m

theorem insert_tracking_close_suffix (pre suf : List Char)
    (hsplit : find_split (pre ++ ')' :: suf) = some pre.length) :
    insert_tracking (pre ++ ')' :: suf) = pre ++ tracking_cols ++ ')' :: suf := by
  rw [insert_tracking, hsplit]
  show List.take pre.length (pre ++ ')' :: suf) ++ tracking_cols ++
      List.drop pre.length (pre ++ ')' :: suf) = pre ++ tracking_cols ++ ')' :: suf
  rw [List.take_left, List.drop_left]

theorem isPrefixOf_append_ext {pat l l2 : List Char}
    (h : pat.isPrefixOf l = true) : pat.isPrefixOf (l ++ l2) = true := by
  induction pat generalizing l with
  | nil => simp [List.isPrefixOf]
  | cons p ps ih =>
    cases l with
    | nil => simp [List.isPrefixOf] at h
    | cons c cs =>
      rw [List.cons_append]
      simp only [List.isPrefixOf, Bool.and_eq_true] at h ⊢
      exact ⟨h.1, ih h.2⟩

theorem contains_sub_append_right (pat l1 l2 : List Char)
    (h : contains_sub pat l1 = true) : contains_sub pat (l1 ++ l2) = true := by
  induction l1 with
  | nil =>
    rw [contains_sub] at h
    have hpat : pat = [] := by
      cases pat with
      | nil => rfl
      | cons c cs => simp [List.isEmpty] at h
    subst hpat
    cases l2 with
    | nil => exact h
    | cons c cs =>
      rw [List.nil_append, contains_sub]
      simp [List.isPrefixOf]
  | cons c cs ih =>
    rw [contains_sub] at h
    rw [List.cons_append, contains_sub]
    rcases Bool.or_eq_true_iff.mp h with h1 | h1
    · rw [Bool.or_eq_true_iff]
      left
      exact isPrefixOf_append_ext h1
    · rw [Bool.or_eq_true_iff]
      right
      exact ih h1

/-- C5 (amended): for every source DDL whose quote-converted,
`IF NOT EXISTS`-rewritten text ends in a final closing parenthesis —
either closing the statement or followed by whitespace and an ENGINE
table-options tail holding no further closing parenthesis, the shapes
the code's closing-paren/ENGINE regex locates — the executed statement
is exactly that text with the two tracking-column definitions inserted
immediately before that final parenthesis, and nothing is removed: any
substring of the text before the parenthesis (a
`CONSTRAINT … FOREIGN KEY …` clause in particular) survives into the
executed statement. -/
theorem C5_tracking_cols_inserted_fk_kept (t ddl pre suf : List Char)
    (h : replace_all (create_pat t) (create_rep t) (replace_quotes ddl) =
      pre ++ ')' :: suf)
    (hsuf : ((suf.dropWhile is_py_space).isEmpty
      || "ENGINE".toList.isPrefixOf (suf.dropWhile is_py_space)) = true)
    (hnop : ')' ∉ suf) :
    executed_create_statement t ddl = pre ++ tracking_cols ++ ')' :: suf ∧
    ∀ pat, contains_sub pat pre = true →
      contains_sub pat (executed_create_statement t ddl) = true := by
  have hsplit : find_split (pre ++ ')' :: suf) = some pre.length :=
    find_split_close_suffix pre suf (close_match_cons_close hsuf) hnop
  have hmain : executed_create_statement t ddl =
      pre ++ tracking_cols ++ ')' :: suf := by
    rw [executed_create_statement, h, insert_tracking_close_suffix pre suf hsplit]
  refine ⟨hmain, ?_⟩
  intro pat hpat
  rw [hmain, List.append_assoc]
  exact contains_sub_append_right pat pre (tracking_cols ++ (')' :: suf)) hpat

/-- A sample source DDL carrying a foreign-key constraint clause. -/
def sample_fk_ddl : List Char :=
  ("CREATE TABLE `orders` (\n  `id` int NOT NULL,\n  `cid` int DEFAULT NULL,\n" ++
   "  PRIMARY KEY (`id`),\n" ++
   "  CONSTRAINT `fk1` FOREIGN KEY (`cid`) REFERENCES `c` (`id`)\n" ++
   ") ENGINE=InnoDB").toList

set_option maxRecDepth 16000 in
/-- C5 counterexample: the code never strips foreign-key clauses.  For a
source DDL with a `CONSTRAINT … FOREIGN KEY …` clause, the statement
executed against the target still contains both `CONSTRAINT` and
`FOREIGN KEY`, contradicting the claim that every such clause is
removed. -/
theorem C5_fk_not_removed_counterexample :
    contains_sub "FOREIGN KEY".toList sample_fk_ddl = true ∧
    contains_sub "FOREIGN KEY".toList
      (executed_create_statement "orders".toList sample_fk_ddl) = true ∧
    contains_sub "CONSTRAINT".toList
      (executed_create_statement "orders".toList sample_fk_ddl) = true ∧
    contains_sub "operation_type".toList
      (executed_create_statement "orders".toList sample_fk_ddl) = true :=
  ⟨by rfl, by rfl, by rfl, by rfl⟩

/-- The rewritten text of `sample_fk_ddl` up to (excluding) its final
closing parenthesis. -/
def sample_fk_pre : List Char :=
  ("CREATE TABLE IF NOT EXISTS `orders` (\n  `id` int NOT NULL,\n" ++
   "  `cid` int DEFAULT NULL,\n" ++
   "  PRIMARY KEY (`id`),\n" ++
   "  CONSTRAINT `fk1` FOREIGN KEY (`cid`) REFERENCES `c` (`id`)\n").toList

set_option maxRecDepth 16000 in
/-- C5 witness: the amended statement at the ENGINE-suffixed sample DDL
carrying a foreign-key clause — the tracking columns land before the
final parenthesis of `…)\n) ENGINE=InnoDB` and the FK clause survives. -/
theorem C5_tracking_cols_inserted_fk_kept_witness :
    replace_all (create_pat "orders".toList) (create_rep "orders".toList)
      (replace_quotes sample_fk_ddl) =
      sample_fk_pre ++ ')' :: " ENGINE=InnoDB".toList ∧
    ((" ENGINE=InnoDB".toList.dropWhile is_py_space).isEmpty
      || "ENGINE".toList.isPrefixOf
          (" ENGINE=InnoDB".toList.dropWhile is_py_space)) = true ∧
    (')' ∉ " ENGINE=InnoDB".toList) ∧
    contains_sub "FOREIGN KEY".toList sample_fk_pre = true ∧
    (executed_create_statement "orders".toList sample_fk_ddl =
        sample_fk_pre ++ tracking_cols ++ ')' :: " ENGINE=InnoDB".toList ∧
      ∀ pat, contains_sub pat sample_fk_pre = true →
        contains_sub pat
          (executed_create_statement "orders".toList sample_fk_ddl) = true) :=
  ⟨by rfl, by rfl, by decide, by rfl,
   C5_tracking_cols_inserted_fk_kept "orders".toList sample_fk_ddl
     sample_fk_pre (" ENGINE=InnoDB".toList) (by rfl) (by rfl) (by decide)⟩

/-! ### Configuration validation: `validate_config`

The environment is modelled as an association list from variable name to
value; an absent variable is an absent key.  `validate_config` collects
the required variables that are unset or empty (Python truthiness: the
empty string is falsy), treats `TARGET_DB_PASSWORD` as missing only when
unset, and fails iff the collected list is non-empty.  The ports are
read with a default of 3306 and never validated. -/

abbrev Env := List (String × String)

/-- The `required_vars` list of `validate_config`. -/
def required_vars : List String :=
  ["SOURCE_DB_HOST", "SOURCE_DB_USER", "SOURCE_DB_PASSWORD", "SOURCE_DB_NAME",
   "TARGET_DB_HOST", "TARGET_DB_USER", "TARGET_DB_NAME", "TABLE_NAME"]

/-- Python truthiness of `os.getenv(var)`: set and non-empty. -/
def env_truthy : Option String → Bool
  | none => false
  | some s => !(s = "")

/-- The `missing_vars` list `validate_config` builds. -/
def missing_vars (env : Env) : List String :=
  required_vars.filter (fun v => !env_truthy (alookup v env)) ++
    (if alookup "TARGET_DB_PASSWORD" env = none then ["TARGET_DB_PASSWORD"] else [])

/-- `validate_config`: raises `ValueError` iff `missing_vars` is
non-empty; runs before any connection attempt. -/
def validate_config (env : Env) : Except String Unit :=
  if missing_vars env = [] then .ok () else .error "Missing required environment variables"

/-- An environment with every checked variable set (target password
empty but set) and no `SOURCE_DB_PORT`. -/
def env_no_port : Env :=
  [("SOURCE_DB_HOST", "s"), ("SOURCE_DB_USER", "u"), ("SOURCE_DB_PASSWORD", "p"),
   ("SOURCE_DB_NAME", "d"), ("TARGET_DB_HOST", "h"), ("TARGET_DB_USER", "tu"),
   ("TARGET_DB_NAME", "td"), ("TABLE_NAME", "tab"), ("TARGET_DB_PASSWORD", "")]

/-- C9 counterexample: validation passes although `SOURCE_DB_PORT` — a
source connection parameter — is absent, so validation does not fail
whenever "every source parameter" is unset: the port is defaulted, never
validated. -/
theorem C9_port_not_validated_counterexample :
    validate_config env_no_port = .ok () ∧
    alookup "SOURCE_DB_PORT" env_no_port = none ∧
    alookup "TARGET_DB_PORT" env_no_port = none :=
  ⟨rfl, rfl, rfl⟩

/-- C9 (amended): validation fails iff one of the eight checked
variables (source host/user/password/database, target
host/user/database, table name) is unset or empty, or the target
password is unset; the target password may be the empty string, and the
ports are not validated. -/
theorem C9_validation_iff (env : Env) :
    validate_config env = .ok () ↔
      ((∀ v ∈ required_vars, env_truthy (alookup v env) = true) ∧
       (alookup "TARGET_DB_PASSWORD" env).isSome) := by
  rw [validate_config]
  constructor
  · intro h
    by_cases hm : missing_vars env = []
    · rw [missing_vars] at hm
      have hs := List.append_eq_nil.mp hm
      constructor
      · intro v hv
        have hfil := hs.1
        rw [List.filter_eq_nil_iff] at hfil
        have := hfil v hv
        simp only [Bool.not_eq_true', Bool.not_eq_false] at this
        exact this
      · by_cases hp : alookup "TARGET_DB_PASSWORD" env = none
        · rw [if_pos hp] at hs
          exact absurd hs.2 (by simp)
        · cases hv : alookup "TARGET_DB_PASSWORD" env with
          | none => exact absurd hv hp
          | some s => rfl
    · rw [if_neg hm] at h
      exact absurd h (by simp)
  · rintro ⟨hall, hp⟩
    have hm : missing_vars env = [] := by
      rw [missing_vars]
      have h1 : required_vars.filter (fun v => !env_truthy (alookup v env)) = [] := by
        rw [List.filter_eq_nil_iff]
        intro v hv
        rw [hall v hv]
        simp
      have h2 : alookup "TARGET_DB_PASSWORD" env ≠ none := by
        cases hv : alookup "TARGET_DB_PASSWORD" env with
        | none => rw [hv] at hp; simp at hp
        | some s => simp
      rw [h1, if_neg h2]
      rfl
    rw [if_pos hm]

/-! ### Connection establishment: `get_connection`

Despite its docstring ("Create database connection with retry logic"),
`get_connection` calls `mysql.connector.connect` exactly once: on an
`Error` it logs and re-raises immediately; on success it returns the
connection when `is_connected()` holds and otherwise falls through,
returning `None`.  The model takes the sequence of would-be attempt
outcomes and also reports how many attempts were made. -/

structure Conn where
  is_connected : Bool
deriving DecidableEq

/-- `get_connection`, given the outcome each successive connect attempt
would have; the second component counts the connect calls performed. -/
def get_connection (attempts : Nat → Except String Conn) :
    Except String (Option Conn) × Nat :=
  match attempts 0 with
  | .ok c => (if c.is_connected then .ok (some c) else .ok none, 1)
  | .error e => (.error e, 1)

/-- C10: `get_connection` performs exactly one connect attempt, and any
failure of that first attempt propagates immediately — even when a
second attempt would succeed, no retry happens, so no retry budget
larger than a single attempt exists. -/
theorem C10_single_attempt_no_retry (attempts : Nat → Except String Conn)
    (e : String) (h : attempts 0 = .error e) :
    (get_connection attempts).2 = 1 ∧
    (get_connection attempts).1 = .error e := by
  rw [get_connection, h]
  exact ⟨rfl, rfl⟩

/-- An attempt sequence whose first connect fails and whose retries
would all succeed. -/
def failing_first_attempt : Nat → Except String Conn
  | 0 => .error "connection refused"
  | _ + 1 => .ok ⟨true⟩

/-- C10 witness: with a failing first attempt and succeeding retries,
the error still propagates after one attempt. -/
theorem C10_single_attempt_no_retry_witness :
    failing_first_attempt 0 = .error "connection refused" ∧
    ((get_connection failing_first_attempt).2 = 1 ∧
     (get_connection failing_first_attempt).1 = .error "connection refused") :=
  ⟨rfl, C10_single_attempt_no_retry failing_first_attempt "connection refused" rfl⟩

end DbMirror
